import Mathlib

/-!
Verification development for the commit log reader subsystem
(server/commitlog/reader.go). The reader code itself is translated from
the source; the collaborators it consumes (Segment, CommitLog, the
segment-list lookup helpers) are not part of the source tree and are
modelled from the specification, as marked on each definition.
-/

/-- Decidable equality for Except results, available for concrete
evaluation of constructor outcomes. -/
instance {e a : Type} [DecidableEq e] [DecidableEq a] : DecidableEq (Except e a) := fun x y =>
  match x, y with
  | Except.ok v, Except.ok w =>
    if h : v = w then isTrue (by rw [h]) else isFalse (by intro hc; cases hc; exact h rfl)
  | Except.error v, Except.error w =>
    if h : v = w then isTrue (by rw [h]) else isFalse (by intro hc; cases hc; exact h rfl)
  | Except.ok v, Except.error w => isFalse (by intro hc; cases hc)
  | Except.error v, Except.ok w => isFalse (by intro hc; cases hc)

/-- A byte, kept as a natural number (0 to 255). -/
abbrev Byte := Nat

/-- Error kinds surfaced by the reader subsystem. `EOF` stands for Go's
io.EOF, which the spec calls EndOfStream. `NoNextSegment` is the
errors.New("no segment to consume") value, the spec's
InternalNoNextSegment. `Storage` is an opaque underlying read failure. -/
inductive Err where
  | EOF
  | SegmentNotFound
  | OffsetOutOfRange
  | NoNextSegment
  | Storage (code : Nat)
deriving DecidableEq, Repr

/-- Modelled from the spec: a segment index entry maps an offset to the
byte position of its frame inside the segment and the frame's size. -/
structure IndexEntry where
  offset : Int
  position : Int
  size : Int
deriving DecidableEq, Repr

/-- Modelled from the spec: a segment has a base offset (its identity),
the bytes appended so far (the last-written position is data.length) and
an offset index. -/
structure Segment where
  base : Int
  data : List Byte
  index : List IndexEntry
deriving DecidableEq, Repr

/-- Modelled from the spec: the commit log as a reader sees it, an
ordered list of segments plus the high watermark (-1 when no message is
committed). The closed signal and cancellation are modelled as wait
outcomes below. -/
structure CommitLog where
  segments : List Segment
  hw : Int
deriving DecidableEq, Repr

/-- Base offsets of the current segment list. A reader's segment-list
snapshot is a list of segment pointers; since a segment's identity is
its unique base offset, the snapshot is modelled as the list of bases,
and a pointer dereference goes through the current log value. -/
def CommitLog.baseList (l : CommitLog) : List Int := l.segments.map (fun s => s.base)

/-- Dereference a segment pointer, identified by its unique base. -/
def CommitLog.getSeg (l : CommitLog) (b : Int) : Option Segment :=
  l.segments.find? (fun s => s.base == b)

/-- Modelled from the spec: CommitLog.OldestOffset, the smallest
readable offset, which is the base of the first retained segment. -/
def CommitLog.oldestOffset (l : CommitLog) : Int :=
  match l.segments with
  | [] => 0
  | s :: _ => s.base

/-- Modelled from the spec: Segment.ReadAt. A positional read returns
EndOfStream once the position has reached the segment's last-written
position, and otherwise the available bytes (up to the requested count)
with no error. A read through a dangling pointer is an opaque storage
error (unreachable under the documented invariants: segments outlive
readers positioned in them). -/
def segReadAt (log : CommitLog) (b : Int) (want : Nat) (pos : Int) : List Byte × Option Err :=
  match log.getSeg b with
  | none => ([], some (Err.Storage 0))
  | some s =>
    if (s.data.length : Int) ≤ pos then ([], some Err.EOF)
    else ((s.data.drop pos.toNat).take want, none)

/-- Modelled from the spec: Segment.findEntry, the index lookup for one
offset, failing with OffsetOutOfRange when the offset is not present. -/
def segFindEntry (log : CommitLog) (b : Int) (off : Int) : Except Err IndexEntry :=
  match log.getSeg b with
  | none => Except.error Err.SegmentNotFound
  | some s =>
    match s.index.find? (fun e => e.offset == off) with
    | none => Except.error Err.OffsetOutOfRange
    | some e => Except.ok e

/-- Modelled from the spec: findSegment over a segment-list snapshot,
the segment with the greatest base at most the offset, none when the
offset precedes the earliest base. Bases are strictly increasing.
Returns the segment (as its base) rather than the pair of pointer and
index; the index is only ever used to re-read the same segment. -/
def findSegment (bases : List Int) (off : Int) : Option Int :=
  match bases with
  | [] => none
  | b :: rest =>
    if off < b then none
    else
      match findSegment rest off with
      | some b2 => some b2
      | none => some b

/-- Modelled from the spec: findSegmentByBaseOffset, used to advance to
the next segment given the previous base plus one. The spec words the
lookup as an equality match, but its own rolling scenarios (S3, and
multi-record segments throughout) require the least base at or above
the argument, which is what is modelled here. -/
def findSegmentByBaseOffset (bases : List Int) (off : Int) : Option Int :=
  match bases with
  | [] => none
  | b :: rest => if off ≤ b then some b else findSegmentByBaseOffset rest off

/-- From the source (reader.go getHWPos): locate the segment holding the
HW and the byte position just past the end of the HW message. The source
returns the snapshot index of the HW segment; the segment itself (its
base) is returned here, which is what the callers extract from the
index. -/
def getHWPos (log : CommitLog) (bases : List Int) (hw : Int) : Except Err (Int × Int) :=
  match findSegment bases hw with
  | none => Except.error Err.SegmentNotFound
  | some b =>
    match segFindEntry log b hw with
    | Except.error e => Except.error e
    | Except.ok e => Except.ok (b, e.position + e.size)

/-- A byte source behind Go's io.Reader: the successive responses that
Read calls will yield, each a chunk of bytes plus an optional error. -/
abbrev ByteSource := List (List Byte × Option Err)

/-- Go io.Reader semantics for one Read call into a buffer of the given
length: pop the next response, truncated to the buffer length. An
exhausted source reports EOF. -/
def goRead (src : ByteSource) (bufLen : Nat) : (List Byte × Option Err) × ByteSource :=
  match src with
  | [] => (([], some Err.EOF), [])
  | (bs, e) :: rest => ((bs.take bufLen, e), rest)

/-- Big-endian integer value of a byte list. -/
def beVal (l : List Byte) : Nat := l.foldl (fun a b => a * 256 + b) 0

/-- From the source (reader.go ReadMessage): a single Read call into the
caller-supplied header buffer, a big-endian parse of offset, timestamp
and size from that buffer, then a single Read call into a fresh
zero-filled size-byte payload buffer, which is returned whole. Either
Read call's error is returned unchanged. Bytes of the header buffer not
overwritten by the first Read keep their previous contents. -/
def ReadMessage (src : ByteSource) (headersBuf : List Byte) :
    Except Err (List Byte × Nat × Nat) :=
  let r1 := goRead src headersBuf.length
  match r1.1.2 with
  | some e => Except.error e
  | none =>
    let hb := r1.1.1 ++ headersBuf.drop r1.1.1.length
    let offset := beVal (hb.take 8)
    let ts := beVal ((hb.drop 8).take 8)
    let size := beVal ((hb.drop 16).take 4)
    let r2 := goRead r1.2 size
    match r2.1.2 with
    | some e => Except.error e
    | none => Except.ok (r2.1.1 ++ (List.replicate size 0).drop r2.1.1.length, offset, ts)

/-- The claim's reading of the decoder, stated from the spec's words for
comparison: take exactly the first 20 bytes of the byte stream as the
header, parse big-endian, then take exactly size payload bytes;
EndOfStream when the stream ends before either is complete. -/
def ReadMessageSpec (stream : List Byte) : Except Err (List Byte × Nat × Nat) :=
  if stream.length < 20 then Except.error Err.EOF
  else
    let hd := stream.take 20
    let size := beVal ((hd.drop 16).take 4)
    let rest := stream.drop 20
    if rest.length < size then Except.error Err.EOF
    else Except.ok (rest.take size, beVal (hd.take 8), beVal ((hd.drop 8).take 8))

/-- Outcome of one suspension: either the writer side woke the reader,
with the log now in a new state, or cancellation or log close fired.
The two control signals behave identically inside a wait, so they share
one constructor. -/
inductive WaitOutcome where
  | woken (log : CommitLog)
  | cancelled
deriving DecidableEq, Repr

/-- Result of a whole Read call: the delivered bytes together with the
Go error value, or an out-of-range slice expression (a runtime panic in
Go). -/
inductive Outcome where
  | ok (bytes : List Byte) (err : Option Err)
  | oob
deriving DecidableEq, Repr

/-- From the source: the CommittedReader struct. The current segment and
the HW segment are pointers, modelled by their bases; seg is none in the
pre-HW waiting state. -/
structure CommittedReader where
  seg : Option Int
  hwSeg : Option Int
  pos : Int
  hwPos : Int
  hw : Int
deriving DecidableEq, Repr

/-- From the source: the UncommittedReader struct. -/
structure UncommittedReader where
  seg : Int
  pos : Int
deriving DecidableEq, Repr

/-- From the source (NewReaderUncommitted): locate the segment covering
the offset and resolve the in-segment position. -/
def NewReaderUncommitted (log : CommitLog) (offset : Int) : Except Err UncommittedReader :=
  match findSegment log.baseList offset with
  | none => Except.error Err.SegmentNotFound
  | some sb =>
    match segFindEntry log sb offset with
    | Except.error e => Except.error e
    | Except.ok en => Except.ok ⟨sb, en.position⟩

/-- From the source (NewReaderCommitted): compute the HW cursor first
(hwPos stays -1 and hwSeg nil on an empty log), construct in waiting
state when the offset exceeds the HW, otherwise clamp the offset up to
the oldest retained offset and construct in reading state. -/
def NewReaderCommitted (log : CommitLog) (offset : Int) : Except Err CommittedReader :=
  let hw := log.hw
  let bases := log.baseList
  let hwRes : Except Err (Option Int × Int) :=
    if hw = -1 then Except.ok (none, -1)
    else
      match getHWPos log bases hw with
      | Except.error e => Except.error e
      | Except.ok p => Except.ok (some p.1, p.2)
  match hwRes with
  | Except.error e => Except.error e
  | Except.ok hwv =>
    if offset > hw then Except.ok ⟨none, hwv.1, -1, hwv.2, hw⟩
    else
      let off := if offset < log.oldestOffset then log.oldestOffset else offset
      match findSegment bases off with
      | none => Except.error Err.SegmentNotFound
      | some sb =>
        match segFindEntry log sb off with
        | Except.error e => Except.error e
        | Except.ok en => Except.ok ⟨some sb, hwv.1, en.position, hwv.2, hw⟩

/-- Loop state of CommittedReader.readLoop: the current segment and
position, the HW cursor, the reader's last-seen HW and the segment-list
snapshot in use. -/
structure CState where
  segb : Int
  pos : Int
  hwSeg : Option Int
  hwPos : Int
  hw : Int
  bases : List Int
deriving DecidableEq, Repr

/-- From the source (readLoop): the per-iteration slice limit; on the HW
segment the read is limited to hwPos minus pos. -/
def stepLim (st : CState) (L : Nat) : Int :=
  if st.hwSeg = some st.segb then min (L : Int) (st.hwPos - st.pos) else (L : Int)

/-- From the source (readLoop): the bytes and error the iteration's
positional read of p[n:lim] yields. -/
def stepChunk (log : CommitLog) (st : CState) (n : Nat) (L : Nat) : List Byte × Option Err :=
  segReadAt log st.segb (stepLim st L - n).toNat st.pos

/-- Result of the HW resample-or-wait loop shared by Read and
readLoop. -/
inductive HwWaitRes where
  | proceed (log : CommitLog) (outs : List WaitOutcome)
  | cancel (outs : List WaitOutcome)
  | stuck
deriving DecidableEq, Repr

/-- From the source (Read and readLoop): sample the HW and, while it
still equals the reader's stored HW, block on waitForHW; each wake
resamples. Cancellation or close makes waitForHW return false. -/
def hwWaitLoop (hw0 : Int) (log : CommitLog) (outs : List WaitOutcome) : HwWaitRes :=
  if log.hw ≠ hw0 then HwWaitRes.proceed log outs
  else
    match outs with
    | [] => HwWaitRes.stuck
    | WaitOutcome.cancelled :: rest => HwWaitRes.cancel rest
    | WaitOutcome.woken l2 :: rest => hwWaitLoop hw0 l2 rest

/-- Result of one readLoop iteration. -/
inductive CStepRes where
  | cont (st : CState) (acc : List Byte) (log : CommitLog) (outs : List WaitOutcome)
  | done (acc : List Byte) (err : Option Err) (outs : List WaitOutcome)
  | oob
  | stuck
deriving DecidableEq, Repr

/-- From the source: one iteration of CommittedReader.readLoop. The
slice expression p[n:lim] is an out-of-range panic when lim is below n.
On EndOfStream the reader advances to the next segment and resets its
position; with no successor it fails with NoNextSegment. On hitting the
HW it resamples, waiting as needed; a failure of the HW cursor
recomputation breaks out of the loop with the inner error shadowed, so
the call returns the outer error value, which is nil on this path. -/
def committedStep (log : CommitLog) (st : CState) (acc : List Byte) (L : Nat)
    (outs : List WaitOutcome) : CStepRes :=
  let n := acc.length
  if stepLim st L < (n : Int) then CStepRes.oob
  else
    let rd := stepChunk log st n L
    let chunk := rd.1
    let err := rd.2
    let acc2 := acc ++ chunk
    let st1 : CState := { st with pos := st.pos + (chunk.length : Int) }
    if err ≠ none ∧ err ≠ some Err.EOF then CStepRes.done acc2 err outs
    else if acc2.length = L then CStepRes.done acc2 err outs
    else if chunk.length ≠ 0 ∧ err = none then CStepRes.cont st1 acc2 log outs
    else if err = some Err.EOF then
      match findSegmentByBaseOffset st.bases (st.segb + 1) with
      | none => CStepRes.done acc2 (some Err.NoNextSegment) outs
      | some b2 => CStepRes.cont { st1 with segb := b2, pos := 0 } acc2 log outs
    else
      match hwWaitLoop st.hw log outs with
      | HwWaitRes.cancel rest => CStepRes.done acc2 (some Err.EOF) rest
      | HwWaitRes.stuck => CStepRes.stuck
      | HwWaitRes.proceed log2 outs2 =>
        match getHWPos log2 log2.baseList log2.hw with
        | Except.error _ => CStepRes.done acc2 none outs2
        | Except.ok hp =>
          CStepRes.cont
            { st1 with hw := log2.hw, bases := log2.baseList,
                       hwPos := hp.2, hwSeg := some hp.1 } acc2 log2 outs2

/-- Fuel-bounded run of readLoop. none means the fuel or the supplied
wait outcomes ran out before the call returned. -/
def committedRun (fuel : Nat) (log : CommitLog) (st : CState) (acc : List Byte) (L : Nat)
    (outs : List WaitOutcome) : Option (Outcome × List WaitOutcome) :=
  match fuel with
  | 0 => none
  | fuel2 + 1 =>
    match committedStep log st acc L outs with
    | CStepRes.cont st2 acc2 log2 outs2 => committedRun fuel2 log2 st2 acc2 L outs2
    | CStepRes.done acc2 e outs2 => some (Outcome.ok acc2 e, outs2)
    | CStepRes.oob => some (Outcome.oob, outs)
    | CStepRes.stuck => none

/-- From the source (CommittedReader.Read): with a segment in hand, run
the read loop on the entry snapshot. In the waiting state (seg nil) the
next committed offset is the stored HW plus one; wait for the HW to
move, recompute the HW cursor, locate that offset and fall into the
loop. Construction-style failures of the lookups are returned with no
bytes. -/
def committedRead (fuel : Nat) (log : CommitLog) (r : CommittedReader) (L : Nat)
    (outs : List WaitOutcome) : Option (Outcome × List WaitOutcome) :=
  match r.seg with
  | some sb => committedRun fuel log ⟨sb, r.pos, r.hwSeg, r.hwPos, r.hw, log.baseList⟩ [] L outs
  | none =>
    let offset := r.hw + 1
    match hwWaitLoop r.hw log outs with
    | HwWaitRes.cancel rest => some (Outcome.ok [] (some Err.EOF), rest)
    | HwWaitRes.stuck => none
    | HwWaitRes.proceed log2 outs2 =>
      match getHWPos log2 log2.baseList log2.hw with
      | Except.error e => some (Outcome.ok [] (some e), outs2)
      | Except.ok hp =>
        match findSegment log2.baseList offset with
        | none => some (Outcome.ok [] (some Err.SegmentNotFound), outs2)
        | some sb =>
          match segFindEntry log2 sb offset with
          | Except.error e => some (Outcome.ok [] (some e), outs2)
          | Except.ok en =>
            committedRun fuel log2
              ⟨sb, en.position, some hp.1, hp.2, log2.hw, log2.baseList⟩ [] L outs2

/-- Loop state of UncommittedReader.Read: current segment, position,
snapshot and the waiting latch. -/
structure UState where
  segb : Int
  pos : Int
  bases : List Int
  waiting : Bool
deriving DecidableEq, Repr

/-- Result of one UncommittedReader.Read iteration. -/
inductive UStepRes where
  | cont (st : UState) (acc : List Byte) (log : CommitLog) (outs : List WaitOutcome)
  | done (acc : List Byte) (err : Option Err) (outs : List WaitOutcome)
  | stuck
deriving DecidableEq, Repr

/-- From the source (UncommittedReader.Read, lines 86 to 94): the wait
loop that runs when the reader woke without progress and no successor
segment was found never recomputes the successor, so it can only exit
through cancellation or close; every wake consumes one notification. -/
def drainCancel (acc : List Byte) : List WaitOutcome → UStepRes
  | [] => UStepRes.stuck
  | WaitOutcome.cancelled :: rest => UStepRes.done acc (some Err.EOF) rest
  | WaitOutcome.woken _ :: rest => drainCancel acc rest

/-- From the source: one iteration of UncommittedReader.Read's LOOP. On
first hitting the segment tail the reader rolls to the successor,
resetting its position, or parks. After a wake without progress it
refreshes the snapshot and, when a successor now exists, switches to it
without resetting the position. -/
def uncommittedStep (log : CommitLog) (st : UState) (acc : List Byte) (L : Nat)
    (outs : List WaitOutcome) : UStepRes :=
  let n := acc.length
  let rd := segReadAt log st.segb (L - n) st.pos
  let chunk := rd.1
  let err := rd.2
  let acc2 := acc ++ chunk
  let st1 : UState := { st with pos := st.pos + (chunk.length : Int) }
  if err ≠ none ∧ err ≠ some Err.EOF then UStepRes.done acc2 err outs
  else if acc2.length = L then UStepRes.done acc2 err outs
  else if chunk.length ≠ 0 ∧ err = none then
    UStepRes.cont { st1 with waiting := false } acc2 log outs
  else if err = some Err.EOF ∧ st.waiting = false then
    match findSegmentByBaseOffset st.bases (st.segb + 1) with
    | some b2 => UStepRes.cont { st1 with segb := b2, pos := 0 } acc2 log outs
    | none =>
      match outs with
      | [] => UStepRes.stuck
      | WaitOutcome.cancelled :: rest => UStepRes.done acc2 (some Err.EOF) rest
      | WaitOutcome.woken l2 :: rest => UStepRes.cont { st1 with waiting := true } acc2 l2 rest
  else
    match findSegmentByBaseOffset log.baseList (st.segb + 1) with
    | some b2 => UStepRes.cont { st1 with segb := b2, bases := log.baseList } acc2 log outs
    | none => drainCancel acc2 outs

/-- Fuel-bounded run of the uncommitted LOOP. -/
def uncommittedRun (fuel : Nat) (log : CommitLog) (st : UState) (acc : List Byte) (L : Nat)
    (outs : List WaitOutcome) : Option (Outcome × List WaitOutcome) :=
  match fuel with
  | 0 => none
  | fuel2 + 1 =>
    match uncommittedStep log st acc L outs with
    | UStepRes.cont st2 acc2 log2 outs2 => uncommittedRun fuel2 log2 st2 acc2 L outs2
    | UStepRes.done acc2 e outs2 => some (Outcome.ok acc2 e, outs2)
    | UStepRes.stuck => none

/-- From the source (UncommittedReader.Read): take the segment-list
snapshot and run the loop with the waiting latch cleared. -/
def uncommittedRead (fuel : Nat) (log : CommitLog) (r : UncommittedReader) (L : Nat)
    (outs : List WaitOutcome) : Option (Outcome × List WaitOutcome) :=
  uncommittedRun fuel log ⟨r.seg, r.pos, log.baseList, false⟩ [] L outs

/-- The w-byte big-endian encoding of a value, as proto.Encoding
writes it. -/
def be (w v : Nat) : List Byte :=
  (List.range w).map (fun i => v / 256 ^ (w - 1 - i) % 256)

/-- One framed record: 20-byte header (offset u64, timestamp u64,
size u32, big-endian) followed by the payload. -/
def frame (off ts : Nat) (payload : List Byte) : List Byte :=
  be 8 off ++ be 8 ts ++ be 4 payload.length ++ payload

/-- Concatenated frames of a record list. -/
def frames : List (Nat × Nat × List Byte) → List Byte
  | [] => []
  | (o, t, p) :: rest => frame o t p ++ frames rest

/-- Index entries of a record list laid out from the given position. -/
def mkIndex (pos : Int) : List (Nat × Nat × List Byte) → List IndexEntry
  | [] => []
  | (o, t, p) :: rest =>
    ⟨(o : Int), pos, ((frame o t p).length : Int)⟩ ::
      mkIndex (pos + ((frame o t p).length : Int)) rest

/-- A segment holding the given records, framed and indexed. -/
def mkSegment (b : Int) (recs : List (Nat × Nat × List Byte)) : Segment :=
  ⟨b, frames recs, mkIndex 0 recs⟩

/-- Fixture: one segment with records 0 to 3, one-byte payloads. -/
def segC1 : Segment :=
  mkSegment 0 [(0, 0, [100]), (1, 0, [101]), (2, 0, [102]), (3, 0, [103])]

/-- Fixture: the segC1 log with HW 0. -/
def logC1 : CommitLog := ⟨[segC1], 0⟩

/-- Fixture: the segC1 log after the HW advanced to 3. -/
def logC1b : CommitLog := ⟨[segC1], 3⟩

/-- Fixture: the waiting-state reader NewReaderCommitted(logC1, 2)
returns. -/
def rC1 : CommittedReader := ⟨none, some 0, -1, 21, 0⟩


/-- Fixture: segment base 0 with records 0 and 1 (frame sizes 21 and 22,
43 bytes total). -/
def segU0 : Segment := mkSegment 0 [(0, 0, [10]), (1, 0, [20, 21])]

/-- Fixture: successor segment base 2 with records 2 and 3 (frame sizes
22 and 23, 45 bytes total). -/
def segU1 : Segment := mkSegment 2 [(2, 0, [30, 31]), (3, 0, [40, 41, 42])]

/-- Fixture: the log before the roll, only segU0. -/
def logU0 : CommitLog := ⟨[segU0], -1⟩

/-- Fixture: the log after segU0 was rolled and records 2 and 3 were
appended to segU1. -/
def logU1 : CommitLog := ⟨[segU0, segU1], -1⟩

/-- Fixture: the uncommitted reader at offset 0 of logU0. -/
def rU0 : UncommittedReader := ⟨0, 0⟩

/-- Fixture: one segment with committed record 0 (HW 0, hwPos 21) and an
appended but uncommitted record 1; 42 bytes in all. -/
def segC9 : Segment := mkSegment 0 [(0, 0, [55]), (1, 0, [66])]

/-- Fixture: the segC9 log with HW 0. -/
def logC9 : CommitLog := ⟨[segC9], 0⟩

/-- Fixture: the reading-state reader NewReaderCommitted(logC9, 0)
returns. -/
def rC9 : CommittedReader := ⟨some 0, some 0, 0, 21, 0⟩

/-- Fixture: a two-segment committed log, HW 3 inside the second
segment. -/
def logC7 : CommitLog := ⟨[segU0, segU1], 3⟩

/-- Fixture: a log whose HW points at an offset missing from every
index, so recomputing the HW cursor fails. -/
def logBad : CommitLog := ⟨[segC9], 5⟩

/-- From the source (UncommittedReader.waitForData and
CommittedReader.waitForHW): the select over the close broadcast, the
cancellation signal and the one-shot notification. -/
inductive WaitSignal where
  | closed
  | ctxDone
  | notified
deriving DecidableEq, Repr

/-- Modelled from the spec: waiter deregistration on a waiter set,
removing every registration of the waiter. -/
def removeWaiter (ws : List Nat) (w : Nat) : List Nat := ws.filter (fun x => x ≠ w)

/-- Modelled from the spec: firing the one-shot notification releases
the registered waiters, clearing them from the set. -/
def fireWaiters (_ws : List Nat) : List Nat := []

/-- From the source (UncommittedReader.waitForData): the wait result,
the waiter set afterwards, and how many removeWaiter calls the reader
itself made on that exit path. The closed and ctxDone arms call
seg.removeWaiter; the notified arm returns without deregistering. -/
def waitForDataModel (ws : List Nat) (w : Nat) (s : WaitSignal) : Bool × List Nat × Nat :=
  match s with
  | WaitSignal.closed => (false, removeWaiter ws w, 1)
  | WaitSignal.ctxDone => (false, removeWaiter ws w, 1)
  | WaitSignal.notified => (true, fireWaiters ws, 0)

/-- From the source (CommittedReader.waitForHW): the wait result, the HW
waiter set afterwards, and how many removeHWWaiter calls the reader
itself made on that exit path. -/
def waitForHWModel (ws : List Nat) (w : Nat) (s : WaitSignal) : Bool × List Nat × Nat :=
  match s with
  | WaitSignal.closed => (false, removeWaiter ws w, 1)
  | WaitSignal.ctxDone => (false, removeWaiter ws w, 1)
  | WaitSignal.notified => (true, fireWaiters ws, 0)

/-- Fixture: the honest byte stream whose header starts with offset 5
and announces a one-byte payload. -/
def headC4 : List Byte := be 8 5 ++ be 8 0 ++ be 4 1

/-- Fixture: a legal io.Reader source that yields the stream of headC4
plus payload in a 5-byte read followed by the remainder. -/
def srcC4 : ByteSource := [((headC4.take 5), none), ((headC4.drop 5 ++ [77]), none)]

/-- Fixture: a caller-supplied header buffer with stale bytes from a
previous message in its first eight positions. -/
def hbufC4 : List Byte := [9, 9, 9, 9, 9, 9, 9, 9] ++ List.replicate 12 0

/-- C1 counterexample: constructed in waiting state at offset 2 with
HW 0, then read after the HW advanced to 3, the first Read delivers the
record at offset 1, not the record at the requested offset 2. -/
theorem c1_counterexample :
    NewReaderCommitted logC1 2 = Except.ok rC1 ∧
    committedRead 20 logC1 rC1 63 [WaitOutcome.woken logC1b] =
      some (Outcome.ok (frame 1 0 [101] ++ (frame 2 0 [102] ++ (frame 3 0 [103] ++ [])))
        none, []) ∧
    (frame 1 0 [101] ++ (frame 2 0 [102] ++ (frame 3 0 [103] ++ []))).take 21 =
      frame 1 0 [101] ∧
    frame 1 0 [101] ≠ frame 2 0 [102] := by
  decide

/-- C1 amended: for a CommittedReader in waiting state, once the wait
loop observes an advanced HW, the first Read resumes reading at the
index entry of offset hw0 + 1, the HW observed at construction plus one;
the requested offset is not retained, so the record delivered first is
the one at offset hw0 + 1, not the one at the requested offset. -/
theorem c1_amended (fuel : Nat) (log log2 : CommitLog) (r : CommittedReader) (L : Nat)
    (outs outs2 : List WaitOutcome) (hb hp : Int) (sb : Int) (en : IndexEntry)
    (hseg : r.seg = none)
    (hwl : hwWaitLoop r.hw log outs = HwWaitRes.proceed log2 outs2)
    (hhw : getHWPos log2 log2.baseList log2.hw = Except.ok (hb, hp))
    (hfs : findSegment log2.baseList (r.hw + 1) = some sb)
    (hfe : segFindEntry log2 sb (r.hw + 1) = Except.ok en) :
    committedRead fuel log r L outs =
      committedRun fuel log2 ⟨sb, en.position, some hb, hp, log2.hw, log2.baseList⟩
        [] L outs2 := by
  simp only [committedRead, hseg, hwl, hhw, hfs, hfe]

/-- C1 witness: the amended theorem applied to the concrete waiting
reader of the counterexample scenario. -/
theorem c1_witness :
    committedRead 20 logC1 rC1 63 [WaitOutcome.woken logC1b] =
      committedRun 20 logC1b ⟨0, 21, some 0, 84, 3, [0]⟩ [] 63 [] := by
  exact c1_amended 20 logC1 logC1b rC1 63 [WaitOutcome.woken logC1b] [] 0 84 0
    ⟨1, 21, 21⟩ (by decide) (by decide) (by decide) (by decide) (by decide)

/-- C2: on the failing input the uncommitted reader wakes at the tail of
the rolled first segment, switches to the successor segment without
resetting its in-segment position, and therefore delivers the successor
bytes from position 43 onward, skipping the successor bytes at positions
0 to 42: the delivered stream is not byte-contiguous. -/
theorem c2_gap_eval :
    NewReaderUncommitted logU0 0 = Except.ok rU0 ∧
    uncommittedRead 30 logU0 rU0 100 [WaitOutcome.woken logU1, WaitOutcome.cancelled] =
      some (Outcome.ok (segU0.data ++ segU1.data.drop 43) (some Err.EOF), []) ∧
    segU0.data ++ segU1.data.drop 43 ≠ (segU0.data ++ segU1.data).take 45 := by
  decide

/-- C9: on the failing input the committed reader fills 21 bytes of a
40-byte buffer up to the HW position and then, with uncommitted data
still in the segment, computes lim = 0 below n = 21, so the slice
p[n:lim] is out of range: Read panics instead of blocking for the HW. -/
theorem c9_oob_eval :
    NewReaderCommitted logC9 0 = Except.ok rC9 ∧
    committedRead 20 logC9 rC9 40 [] = some (Outcome.oob, []) := by
  decide

/-- C3: in a readLoop iteration whose current segment is the HW segment,
the chunk the positional read returns is at most hwPos - pos bytes, and
the advanced position stays at or below hwPos, so no byte past the
observed HW position is copied into the caller's buffer. -/
theorem c3_hw_read_bound (log : CommitLog) (st : CState) (n L : Nat)
    (hseg : st.hwSeg = some st.segb) (hpos : st.pos ≤ st.hwPos) :
    ((stepChunk log st n L).1.length : Int) ≤ st.hwPos - st.pos ∧
    st.pos + ((stepChunk log st n L).1.length : Int) ≤ st.hwPos := by
  have hlen : (stepChunk log st n L).1.length ≤ (stepLim st L - (n : Int)).toNat := by
    unfold stepChunk segReadAt
    rcases hG : log.getSeg st.segb with _ | s
    · simp
    · simp only [hG]
      split
      · simp
      · simp only [List.length_take]
        exact min_le_left _ _
  have hlim : stepLim st L ≤ st.hwPos - st.pos := by
    unfold stepLim
    rw [hseg]
    simp
  omega

/-- C3 witness: the bound at a concrete HW-segment state of the logC9
fixture. -/
theorem c3_witness :
    ((stepChunk logC9 ⟨0, 0, some 0, 21, 0, [0]⟩ 0 40).1.length : Int) ≤ 21 - 0 ∧
    (0 : Int) + ((stepChunk logC9 ⟨0, 0, some 0, 21, 0, [0]⟩ 0 40).1.length : Int) ≤ 21 := by
  exact c3_hw_read_bound logC9 ⟨0, 0, some 0, 21, 0, [0]⟩ 0 40 (by decide) (by decide)

/-- C7: in a readLoop iteration where the positional read reports
EndOfStream with the buffer not yet full, the reader advances to the
segment found by the base-plus-one lookup with its position reset to 0,
and when no such segment exists the call breaks with NoNextSegment
rather than an EOF return. -/
theorem c7_eof_advances (log : CommitLog) (st : CState) (acc : List Byte) (L : Nat)
    (outs : List WaitOutcome)
    (hlim : ((acc.length : Int)) ≤ stepLim st L)
    (hread : stepChunk log st acc.length L = ([], some Err.EOF))
    (hlen : acc.length ≠ L) :
    (∀ b2, findSegmentByBaseOffset st.bases (st.segb + 1) = some b2 →
      committedStep log st acc L outs =
        CStepRes.cont { st with segb := b2, pos := 0 } acc log outs) ∧
    (findSegmentByBaseOffset st.bases (st.segb + 1) = none →
      committedStep log st acc L outs =
        CStepRes.done acc (some Err.NoNextSegment) outs) := by
  have hnp : ¬ stepLim st L < (acc.length : Int) := not_lt.mpr hlim
  constructor
  · intro b2 hb2
    simp [committedStep, hnp, hread, hlen, hb2]
  · intro hb2
    simp [committedStep, hnp, hread, hlen, hb2]

/-- C7 witness: at the end of the first segment of the logC7 fixture the
step advances to the successor segment base 2 and resets the position. -/
theorem c7_witness :
    committedStep logC7 ⟨0, 43, some 2, 45, 3, [0, 2]⟩ [] 10 [] =
      CStepRes.cont ⟨2, 0, some 2, 45, 3, [0, 2]⟩ [] logC7 [] := by
  exact (c7_eof_advances logC7 ⟨0, 43, some 2, 45, 3, [0, 2]⟩ [] 10 []
    (by decide) (by decide) (by decide)).1 2 (by decide)

/-- C10: in a readLoop iteration that hits the HW and wakes to an
advanced HW, a failure of the HW cursor recomputation is shadowed: the
step returns the bytes read so far with the error value that was in
effect before the lookup, which is nil on this path, and the lookup's
own error is never propagated. -/
theorem c10_resync_error_swallowed (log log2 : CommitLog) (st : CState) (acc : List Byte)
    (L : Nat) (outs outs2 : List WaitOutcome) (e : Err)
    (hlim : ((acc.length : Int)) ≤ stepLim st L)
    (hread : stepChunk log st acc.length L = ([], none))
    (hlen : acc.length ≠ L)
    (hwl : hwWaitLoop st.hw log outs = HwWaitRes.proceed log2 outs2)
    (hhw : getHWPos log2 log2.baseList log2.hw = Except.error e) :
    committedStep log st acc L outs = CStepRes.done acc none outs2 := by
  have hnp : ¬ stepLim st L < (acc.length : Int) := not_lt.mpr hlim
  simp [committedStep, hnp, hread, hlen, hwl, hhw]

/-- C10 witness: the reader parked at the HW of logC9 wakes to the
corrupt logBad whose HW has no index entry; the step ends the call with
no error in place of the lookup failure. -/
theorem c10_witness :
    committedStep logC9 ⟨0, 21, some 0, 21, 0, [0]⟩ [] 10 [WaitOutcome.woken logBad] =
      CStepRes.done [] none [] := by
  exact c10_resync_error_swallowed logC9 logBad ⟨0, 21, some 0, 21, 0, [0]⟩ [] 10
    [WaitOutcome.woken logBad] [] Err.OffsetOutOfRange
    (by decide) (by decide) (by decide) (by decide) (by decide)

/-- C6: NewReaderCommitted, given the HW cursor values its prologue
computes, constructs in waiting state with seg none and pos -1 while
retaining hw, hwSeg and hwPos whenever the offset exceeds the HW
(including HW -1 for the empty log); otherwise it raises the offset to
the oldest retained offset if smaller, locates the containing segment
and in-segment position, and constructs in reading state. -/
theorem c6_new_reader_committed (log : CommitLog) (offset : Int) (hwsb : Option Int)
    (hwp : Int) (hoff : 0 ≤ offset)
    (hhw : (log.hw = -1 ∧ hwsb = none ∧ hwp = -1) ∨
      (log.hw ≠ -1 ∧
        ∃ hb, getHWPos log log.baseList log.hw = Except.ok (hb, hwp) ∧ hwsb = some hb)) :
    (offset > log.hw →
      NewReaderCommitted log offset = Except.ok ⟨none, hwsb, -1, hwp, log.hw⟩) ∧
    (offset ≤ log.hw → ∀ sb en,
      findSegment log.baseList
          (if offset < log.oldestOffset then log.oldestOffset else offset) = some sb →
      segFindEntry log sb
          (if offset < log.oldestOffset then log.oldestOffset else offset) =
        Except.ok en →
      NewReaderCommitted log offset =
        Except.ok ⟨some sb, hwsb, en.position, hwp, log.hw⟩) := by
  rcases hhw with ⟨h1, h2, h3⟩ | ⟨h1, hb, hget, hsb⟩
  · subst h2
    subst h3
    constructor
    · intro hgt
      simp [NewReaderCommitted, h1, hgt]
      all_goals first
        | omega
        | (intro h; exact absurd h (by omega))
    · intro hle sb en hfs hfe
      have hngt : ¬ offset > log.hw := not_lt.mpr hle
      simp [NewReaderCommitted, h1, hngt, hfs, hfe]
      all_goals first
        | omega
        | (intro h; exact absurd h (by omega))
  · subst hsb
    constructor
    · intro hgt
      simp [NewReaderCommitted, h1, hget, hgt]
      all_goals first
        | omega
        | (intro h; exact absurd h (by omega))
    · intro hle sb en hfs hfe
      have hngt : ¬ offset > log.hw := not_lt.mpr hle
      simp [NewReaderCommitted, h1, hget, hngt, hfs, hfe]
      all_goals first
        | omega
        | (intro h; exact absurd h (by omega))

/-- C6 witness: the constructor applied at offset 2 of the logC1 fixture
(HW 0) yields the waiting-state reader retaining the HW cursor. -/
theorem c6_witness :
    NewReaderCommitted logC1 2 = Except.ok ⟨none, some 0, -1, 21, 0⟩ := by
  exact (c6_new_reader_committed logC1 2 (some 0) 21 (by decide)
    (Or.inr ⟨by decide, 0, by decide, rfl⟩)).1 (by decide)

/-- C4 counterexample: a legal byte source that yields the header in a
5-byte read followed by the remainder. ReadMessage parses the stale
buffer contents instead of the remaining header bytes and returns a
different message than the one framed in the stream, so it does not read
exactly 20 header bytes from the source. -/
theorem c4_counterexample :
    ReadMessage srcC4 hbufC4 = Except.ok ([], 592137, 0) ∧
    ReadMessageSpec (headC4.take 5 ++ (headC4.drop 5 ++ [77])) =
      Except.ok ([77], 5, 0) ∧
    ReadMessage srcC4 hbufC4 ≠
      ReadMessageSpec (headC4.take 5 ++ (headC4.drop 5 ++ [77])) := by
  decide

/-- C4 amended: ReadMessage issues one Read call for the header buffer
and one for the size-byte payload buffer; whenever each Read call either
completely fills its buffer or reports an error, it parses big-endian
offset, timestamp and size from the 20 header bytes, reads exactly size
payload bytes and returns them, and it returns a Read call's error
(EndOfStream on EOF) unchanged. -/
theorem c4_amended (a1 a2 : List Byte) (rest : ByteSource) (hbuf : List Byte)
    (a3 : List Byte) (e : Err) (rest2 : ByteSource)
    (hb20 : hbuf.length = 20) (ha1 : a1.length = 20)
    (ha2 : a2.length = beVal ((a1.drop 16).take 4)) :
    ReadMessage ((a1, none) :: (a2, none) :: rest) hbuf =
      Except.ok (a2, beVal (a1.take 8), beVal ((a1.drop 8).take 8)) ∧
    ReadMessage ((a3, some e) :: rest2) hbuf = Except.error e := by
  have t1 : a1.take 20 = a1 := by rw [← ha1, List.take_length]
  have t2 : hbuf.drop 20 = [] := by rw [← hb20, List.drop_length]
  have t3 : a2.take (beVal ((a1.drop 16).take 4)) = a2 := by rw [← ha2, List.take_length]
  have t4 : (List.replicate (beVal ((a1.drop 16).take 4)) 0).drop a2.length = [] := by
    simp [← ha2]
  constructor
  · simp [ReadMessage, goRead, hb20, t1, t2, t3, t4, ha1]
  · simp [ReadMessage, goRead]

/-- C4 witness: the amended behavior at a concrete full-read source and
a concrete erroring source. -/
theorem c4_witness :
    ReadMessage [(headC4, none), ([77], none)] (List.replicate 20 0) =
      Except.ok ([77], beVal (headC4.take 8), beVal ((headC4.drop 8).take 8)) ∧
    ReadMessage [([1, 2], some (Err.Storage 3))] (List.replicate 20 0) =
      Except.error (Err.Storage 3) := by
  exact c4_amended headC4 [77] [] (List.replicate 20 0) [1, 2] (Err.Storage 3) []
    (by decide) (by decide) (by decide)

/-- C8 counterexample: on the satisfied-wakeup exit path neither
waitForData nor waitForHW invokes the deregistration call; the reader
makes zero removeWaiter and removeHWWaiter calls there. -/
theorem c8_counterexample :
    (waitForDataModel [7] 7 WaitSignal.notified).2.2 = 0 ∧
    (waitForHWModel [7] 7 WaitSignal.notified).2.2 = 0 := by
  decide

/-- C8 amended: on every exit path from a wait the reader's registration
is gone from the waiter set, but the reader itself invokes removeWaiter
and removeHWWaiter only on the cancellation and close paths; on a
satisfied wakeup the firing of the one-shot notification has already
cleared the registration. Deregistering twice is a no-op. -/
theorem c8_amended (ws : List Nat) (w : Nat) (s : WaitSignal) :
    ¬ w ∈ (waitForDataModel ws w s).2.1 ∧
    ¬ w ∈ (waitForHWModel ws w s).2.1 ∧
    (waitForDataModel ws w s).2.2 = (if s = WaitSignal.notified then 0 else 1) ∧
    (waitForHWModel ws w s).2.2 = (if s = WaitSignal.notified then 0 else 1) ∧
    removeWaiter (removeWaiter ws w) w = removeWaiter ws w := by
  cases s <;>
    simp [waitForDataModel, waitForHWModel, removeWaiter, fireWaiters,
      List.mem_filter, List.filter_filter]

/-- Helper: an HW wait whose next outcome is cancellation either
proceeds without consuming it or cancels consuming exactly it. -/
theorem hwWaitLoop_cancel_head (h : Int) (log : CommitLog) (rest : List WaitOutcome) :
    hwWaitLoop h log (WaitOutcome.cancelled :: rest) =
        HwWaitRes.proceed log (WaitOutcome.cancelled :: rest) ∨
    hwWaitLoop h log (WaitOutcome.cancelled :: rest) = HwWaitRes.cancel rest := by
  unfold hwWaitLoop
  split
  · exact Or.inl rfl
  · exact Or.inr rfl

/-- Helper: a readLoop iteration whose next outcome is cancellation
either does not consume it, or consumes it at the wait and ends the call
with EndOfStream; any bytes it appends extend the accumulator. -/
theorem committedStep_cancel_head (log : CommitLog) (st : CState) (acc : List Byte)
    (L : Nat) (rest : List WaitOutcome) :
    (∃ st2 acc2 log2, committedStep log st acc L (WaitOutcome.cancelled :: rest) =
        CStepRes.cont st2 acc2 log2 (WaitOutcome.cancelled :: rest) ∧ acc <+: acc2) ∨
    (∃ acc2 e, committedStep log st acc L (WaitOutcome.cancelled :: rest) =
        CStepRes.done acc2 e (WaitOutcome.cancelled :: rest) ∧ acc <+: acc2) ∨
    (∃ acc2, committedStep log st acc L (WaitOutcome.cancelled :: rest) =
        CStepRes.done acc2 (some Err.EOF) rest ∧ acc <+: acc2) ∨
    committedStep log st acc L (WaitOutcome.cancelled :: rest) = CStepRes.oob := by
  simp only [committedStep]
  split
  · exact Or.inr (Or.inr (Or.inr rfl))
  · split
    · exact Or.inr (Or.inl ⟨_, _, rfl, List.prefix_append _ _⟩)
    · split
      · exact Or.inr (Or.inl ⟨_, _, rfl, List.prefix_append _ _⟩)
      · split
        · exact Or.inl ⟨_, _, _, rfl, List.prefix_append _ _⟩
        · split
          · split
            · exact Or.inr (Or.inl ⟨_, _, rfl, List.prefix_append _ _⟩)
            · exact Or.inl ⟨_, _, _, rfl, List.prefix_append _ _⟩
          · split
            next outs3 heq =>
              rcases hwWaitLoop_cancel_head st.hw log rest with hc | hc
              · rw [hc] at heq
                cases heq
              · rw [hc] at heq
                injection heq with h3
                subst h3
                exact Or.inr (Or.inr (Or.inl ⟨_, rfl, List.prefix_append _ _⟩))
            next heq =>
              rcases hwWaitLoop_cancel_head st.hw log rest with hc | hc
              · rw [hc] at heq
                cases heq
              · rw [hc] at heq
                cases heq
            next log2 outs3 heq =>
              rcases hwWaitLoop_cancel_head st.hw log rest with hc | hc
              · rw [hc] at heq
                injection heq with h3 h4
                subst h3
                subst h4
                split
                · exact Or.inr (Or.inl ⟨_, _, rfl, List.prefix_append _ _⟩)
                · exact Or.inl ⟨_, _, _, rfl, List.prefix_append _ _⟩
              · rw [hc] at heq
                cases heq

/-- Helper: over a whole readLoop run whose pending outcome list starts
with cancellation, consuming that outcome forces the EndOfStream return,
and the delivered bytes extend whatever was already accumulated. -/
theorem committedRun_cancel_head :
    ∀ (fuel : Nat) (log : CommitLog) (st : CState) (acc : List Byte) (L : Nat)
      (rest : List WaitOutcome) (bytes : List Byte) (err : Option Err)
      (outs2 : List WaitOutcome),
      committedRun fuel log st acc L (WaitOutcome.cancelled :: rest) =
        some (Outcome.ok bytes err, outs2) →
      outs2 ≠ WaitOutcome.cancelled :: rest →
      err = some Err.EOF ∧ acc <+: bytes := by
  intro fuel
  induction fuel with
  | zero =>
    intro log st acc L rest bytes err outs2 h hne
    simp [committedRun] at h
  | succ f ih =>
    intro log st acc L rest bytes err outs2 h hne
    rcases committedStep_cancel_head log st acc L rest with
      ⟨st2, acc2, log2, hs, hp⟩ | ⟨acc2, e, hs, hp⟩ | ⟨acc2, hs, hp⟩ | hs
    · simp only [committedRun, hs] at h
      rcases ih log2 st2 acc2 L rest bytes err outs2 h hne with ⟨he, hpre⟩
      exact ⟨he, hp.trans hpre⟩
    · simp only [committedRun, hs, Option.some.injEq, Prod.mk.injEq,
        Outcome.ok.injEq] at h
      exact absurd h.2.symm hne
    · simp only [committedRun, hs, Option.some.injEq, Prod.mk.injEq,
        Outcome.ok.injEq] at h
      exact ⟨h.1.2.symm, h.1.1 ▸ hp⟩
    · simp [committedRun, hs] at h

/-- Helper: an uncommitted-read iteration whose next outcome is
cancellation either does not consume it, or consumes it at the wait and
ends the call with EndOfStream, extending the accumulator. -/
theorem uncommittedStep_cancel_head (log : CommitLog) (st : UState) (acc : List Byte)
    (L : Nat) (rest : List WaitOutcome) :
    (∃ st2 acc2 log2, uncommittedStep log st acc L (WaitOutcome.cancelled :: rest) =
        UStepRes.cont st2 acc2 log2 (WaitOutcome.cancelled :: rest) ∧ acc <+: acc2) ∨
    (∃ acc2 e, uncommittedStep log st acc L (WaitOutcome.cancelled :: rest) =
        UStepRes.done acc2 e (WaitOutcome.cancelled :: rest) ∧ acc <+: acc2) ∨
    (∃ acc2, uncommittedStep log st acc L (WaitOutcome.cancelled :: rest) =
        UStepRes.done acc2 (some Err.EOF) rest ∧ acc <+: acc2) := by
  simp only [uncommittedStep]
  split
  · exact Or.inr (Or.inl ⟨_, _, rfl, List.prefix_append _ _⟩)
  · split
    · exact Or.inr (Or.inl ⟨_, _, rfl, List.prefix_append _ _⟩)
    · split
      · exact Or.inl ⟨_, _, _, rfl, List.prefix_append _ _⟩
      · split
        · split
          · exact Or.inl ⟨_, _, _, rfl, List.prefix_append _ _⟩
          · exact Or.inr (Or.inr ⟨_, rfl, List.prefix_append _ _⟩)
        · split
          · exact Or.inl ⟨_, _, _, rfl, List.prefix_append _ _⟩
          · exact Or.inr (Or.inr ⟨_, rfl, List.prefix_append _ _⟩)

/-- Helper: over a whole uncommitted-read run whose pending outcome list
starts with cancellation, consuming that outcome forces the EndOfStream
return, and the delivered bytes extend the accumulator. -/
theorem uncommittedRun_cancel_head :
    ∀ (fuel : Nat) (log : CommitLog) (st : UState) (acc : List Byte) (L : Nat)
      (rest : List WaitOutcome) (bytes : List Byte) (err : Option Err)
      (outs2 : List WaitOutcome),
      uncommittedRun fuel log st acc L (WaitOutcome.cancelled :: rest) =
        some (Outcome.ok bytes err, outs2) →
      outs2 ≠ WaitOutcome.cancelled :: rest →
      err = some Err.EOF ∧ acc <+: bytes := by
  intro fuel
  induction fuel with
  | zero =>
    intro log st acc L rest bytes err outs2 h hne
    simp [uncommittedRun] at h
  | succ f ih =>
    intro log st acc L rest bytes err outs2 h hne
    rcases uncommittedStep_cancel_head log st acc L rest with
      ⟨st2, acc2, log2, hs, hp⟩ | ⟨acc2, e, hs, hp⟩ | ⟨acc2, hs, hp⟩
    · simp only [uncommittedRun, hs] at h
      rcases ih log2 st2 acc2 L rest bytes err outs2 h hne with ⟨he, hpre⟩
      exact ⟨he, hp.trans hpre⟩
    · simp only [uncommittedRun, hs, Option.some.injEq, Prod.mk.injEq,
        Outcome.ok.injEq] at h
      exact absurd h.2.symm hne
    · simp only [uncommittedRun, hs, Option.some.injEq, Prod.mk.injEq,
        Outcome.ok.injEq] at h
      exact ⟨h.1.2.symm, h.1.1 ▸ hp⟩

/-- Helper: a committed Read entered in waiting state with an unchanged
HW and cancellation pending returns no bytes and EndOfStream. -/
theorem committedRead_waiting_cancel :
    ∀ (fuel : Nat) (log : CommitLog) (r : CommittedReader) (L : Nat)
      (rest : List WaitOutcome), r.seg = none → log.hw = r.hw →
      committedRead fuel log r L (WaitOutcome.cancelled :: rest) =
        some (Outcome.ok [] (some Err.EOF), rest) := by
  intro fuel log r L rest hseg hhw
  have hwl : hwWaitLoop r.hw log (WaitOutcome.cancelled :: rest) = HwWaitRes.cancel rest := by
    unfold hwWaitLoop
    rw [if_neg (by simp [hhw])]
  simp only [committedRead, hseg, hwl]

/-- C5: for both reader kinds, whenever a Read call blocked in a wait
observes cancellation or log close (the pending outcome is consumed),
the call returns EndOfStream together with all bytes already copied into
the caller's buffer during the call: the delivered list extends the
accumulated one. The third conjunct covers the committed reader's
pre-loop waiting state. -/
theorem c5_cancel_returns_eof :
    (∀ (fuel : Nat) (log : CommitLog) (st : CState) (acc : List Byte) (L : Nat)
      (rest : List WaitOutcome) (bytes : List Byte) (err : Option Err)
      (outs2 : List WaitOutcome),
      committedRun fuel log st acc L (WaitOutcome.cancelled :: rest) =
        some (Outcome.ok bytes err, outs2) →
      outs2 ≠ WaitOutcome.cancelled :: rest →
      err = some Err.EOF ∧ acc <+: bytes) ∧
    (∀ (fuel : Nat) (log : CommitLog) (st : UState) (acc : List Byte) (L : Nat)
      (rest : List WaitOutcome) (bytes : List Byte) (err : Option Err)
      (outs2 : List WaitOutcome),
      uncommittedRun fuel log st acc L (WaitOutcome.cancelled :: rest) =
        some (Outcome.ok bytes err, outs2) →
      outs2 ≠ WaitOutcome.cancelled :: rest →
      err = some Err.EOF ∧ acc <+: bytes) ∧
    (∀ (fuel : Nat) (log : CommitLog) (r : CommittedReader) (L : Nat)
      (rest : List WaitOutcome), r.seg = none → log.hw = r.hw →
      committedRead fuel log r L (WaitOutcome.cancelled :: rest) =
        some (Outcome.ok [] (some Err.EOF), rest)) :=
  ⟨committedRun_cancel_head, uncommittedRun_cancel_head, committedRead_waiting_cancel⟩

/-- C5 witness: the theorem applied at a committed reader parked at the
HW, an uncommitted reader parked at its tail, and the waiting-state
entry, each with cancellation pending. -/
theorem c5_witness :
    (some Err.EOF = some Err.EOF ∧ ([] : List Byte) <+: []) ∧
    (some Err.EOF = some Err.EOF ∧ ([] : List Byte) <+: []) ∧
    committedRead 3 logC1 rC1 7 [WaitOutcome.cancelled] =
      some (Outcome.ok [] (some Err.EOF), []) := by
  refine ⟨?_, ?_, ?_⟩
  · exact c5_cancel_returns_eof.1 2 logC9 ⟨0, 21, some 0, 21, 0, [0]⟩ [] 10 [] []
      (some Err.EOF) [] (by decide) (by decide)
  · exact c5_cancel_returns_eof.2.1 2 logU0 ⟨0, 43, [0], false⟩ [] 10 [] []
      (some Err.EOF) [] (by decide) (by decide)
  · exact c5_cancel_returns_eof.2.2 3 logC1 rC1 7 [] (by decide) (by decide)
